import Mathlib

/-!
Verification of the lot-based cost-basis and tax subsystem of the
crypto-stock portfolio backend.

The embedding translates, from the Python sources:
  * `src/services/tax_service.py` — `TaxService._calculate_gain_for_sale`,
    `TaxService._detect_wash_sales`, `TaxService._get_holding_cost_basis`,
    and the per-sale loop of `TaxService.get_tax_year_summary`;
  * `src/services/transaction_service.py` — `TransactionService._calculate_fifo`,
    `_calculate_lifo`, `_calculate_average`, `calculate_cost_basis`;
  * `src/handlers/transaction.py` — `get_cost_basis` (the method-parsing
    boundary only).

Modelling conventions:
  * Python `Decimal`/`float` arithmetic is modelled exactly over `ℚ`.
  * Timestamps are rationals measured in days (a `datetime` is a point on a
    continuous day line); `timedelta.days` is `Int.floor` of the difference,
    and `timedelta(days=30)` is the rational `30`.
  * Symbols, asset ids and transaction ids are atoms, modelled as `Nat`.
  * DynamoDB transaction records and pydantic `Transaction` models carry the
    same fields; records may additionally carry `remaining_quantity`
    (read by `buy.get` with the `quantity` fallback), hence the
    `Option ℚ` field.  Fields never read by the functions under study
    (`user_id`, `asset_type`, `notes`, `created_at`, `updated_at`) are omitted.
-/

namespace Portfolio

/-- The `TransactionType` enum from `src/models/transaction.py`. -/
inductive TransactionType where
  | buy
  | sell
  | transfer_in
  | transfer_out
deriving DecidableEq

/-- The `CostBasisMethod` enum from `src/models/transaction.py`:
values `fifo`, `lifo`, `average`. -/
inductive CostBasisMethod where
  | fifo
  | lifo
  | average
deriving DecidableEq

/-- The two holding-period classifications produced by the tax service. -/
inductive HoldingPeriod where
  | short_term
  | long_term
deriving DecidableEq

/-- A transaction record (pydantic `Transaction` model / DynamoDB item).
`remaining_quantity` is the optional DynamoDB field consulted by
`TaxService._calculate_gain_for_sale` via
`buy.get` falling back to `quantity`; `create_transaction`
never writes it, so stored records carry `none`. -/
structure Tx where
  transaction_id : Nat
  symbol : Nat
  transaction_type : TransactionType
  quantity : ℚ
  price : ℚ
  total_value : ℚ
  fees : ℚ
  transaction_date : ℚ
  remaining_quantity : Option ℚ
deriving DecidableEq

/-- Helper constructor for concrete transaction records
(`remaining_quantity` left absent, as `create_transaction` stores them). -/
def mkTx (id sym : Nat) (ty : TransactionType) (q p tv f d : ℚ) : Tx :=
  { transaction_id := id, symbol := sym, transaction_type := ty,
    quantity := q, price := p, total_value := tv, fees := f,
    transaction_date := d, remaining_quantity := none }

/-- The per-sale gain record built at the end of
`TaxService._calculate_gain_for_sale` (the returned dict). -/
structure GainRecord where
  transaction_id : Nat
  symbol : Nat
  quantity : ℚ
  acquisition_date : ℚ
  sale_date : ℚ
  proceeds : ℚ
  cost_basis : ℚ
  gain_loss : ℚ
  holding_period : HoldingPeriod
  days_held : ℤ
deriving DecidableEq

/-- A wash-sale flag dict as appended by `TaxService._detect_wash_sales`.
Each replacement purchase is recorded as `(date, quantity, price)`. -/
structure WashSaleFlag where
  sell_transaction_id : Nat
  symbol : Nat
  sale_date : ℚ
  loss_amount : ℚ
  disallowed_loss : ℚ
  replacement_purchases : List (ℚ × ℚ × ℚ)
deriving DecidableEq

/-- Embeds the filtering of `all_buys` down to the symbol of the sell
(the `symbol_buys` list comprehension). -/
def symbolBuys (sell : Tx) (all_buys : List Tx) : List Tx :=
  all_buys.filter (fun b => b.symbol == sell.symbol)

/-- One iteration of the FIFO-matching loop of
`TaxService._calculate_gain_for_sale`.  State is
`(remaining_to_match, total_cost_basis, earliest_acquisition)`.
The Python `break` on `remaining_to_match <= 0` is modelled by leaving the
state unchanged (once `remaining ≤ 0` every later iteration is a no-op,
which is observationally the same as breaking). -/
def gainFold (acc : ℚ × ℚ × Option ℚ) (b : Tx) : ℚ × ℚ × Option ℚ :=
  if acc.1 ≤ 0 then acc
  else
    let buy_quantity := b.remaining_quantity.getD b.quantity
    if buy_quantity ≤ 0 then acc
    else
      let matched_quantity := min acc.1 buy_quantity
      let earliest :=
        match acc.2.2 with
        | none => some b.transaction_date
        | some e => if b.transaction_date < e then some b.transaction_date else some e
      (acc.1 - matched_quantity, acc.2.1 + matched_quantity * b.price, earliest)

/-- Embeds `TaxService._calculate_gain_for_sale` (tax_service.py, lines 261–321):
FIFO-match a sell against the full buy history of its symbol, returning
`none` where the Python returns `None`. -/
def calculate_gain_for_sale (sell : Tx) (all_buys : List Tx) : Option GainRecord :=
  if (symbolBuys sell all_buys).isEmpty then none
  else
    match ((symbolBuys sell all_buys).foldl gainFold (sell.quantity, 0, none)).2.2 with
    | none => none
    | some earliest_acquisition =>
      some {
        transaction_id := sell.transaction_id
        symbol := sell.symbol
        quantity := sell.quantity
        acquisition_date := earliest_acquisition
        sale_date := sell.transaction_date
        proceeds := sell.quantity * sell.price
        cost_basis := ((symbolBuys sell all_buys).foldl gainFold (sell.quantity, 0, none)).2.1
        gain_loss := sell.quantity * sell.price -
          ((symbolBuys sell all_buys).foldl gainFold (sell.quantity, 0, none)).2.1
        holding_period :=
          if 365 < ⌊sell.transaction_date - earliest_acquisition⌋ then HoldingPeriod.long_term
          else HoldingPeriod.short_term
        days_held := ⌊sell.transaction_date - earliest_acquisition⌋ }

/-- The `capital_gains` list accumulated by the per-sell loop of
`TaxService.get_tax_year_summary` (lines 50–53): each sell contributes its
gain record when `_calculate_gain_for_sale` returns one. -/
def capitalGains (sells all_buys : List Tx) : List GainRecord :=
  sells.filterMap (fun s => calculate_gain_for_sale s all_buys)

/-- The replacement-purchase scan of `TaxService._detect_wash_sales`:
same-symbol buys with `window_start <= buy_date <= window_end` and
`buy_date != sell_date`, where the window is ±30 days
(`WASH_SALE_WINDOW_DAYS`). -/
def replacementBuys (sell : Tx) (all_buys : List Tx) : List Tx :=
  all_buys.filter (fun b =>
    b.symbol == sell.symbol &&
    decide (sell.transaction_date - 30 ≤ b.transaction_date) &&
    decide (b.transaction_date ≤ sell.transaction_date + 30) &&
    b.transaction_date != sell.transaction_date)

/-- The body of the per-sell loop of `TaxService._detect_wash_sales`:
the flag this sell contributes, if any. -/
def washFlagFor (all_buys : List Tx) (sell : Tx) : Option WashSaleFlag :=
  match calculate_gain_for_sale sell all_buys with
  | none => none
  | some gain_info =>
    if 0 ≤ gain_info.gain_loss then none
    else
      let reps := replacementBuys sell all_buys
      if reps.isEmpty then none
      else some {
        sell_transaction_id := sell.transaction_id
        symbol := sell.symbol
        sale_date := sell.transaction_date
        loss_amount := |gain_info.gain_loss|
        disallowed_loss := |gain_info.gain_loss|
        replacement_purchases := reps.map (fun b => (b.transaction_date, b.quantity, b.price)) }

/-- Embeds `TaxService._detect_wash_sales` (tax_service.py, lines 323–372). -/
def detect_wash_sales (sells all_buys : List Tx) : List WashSaleFlag :=
  sells.filterMap (washFlagFor all_buys)

/-- Embeds `TaxService._get_holding_cost_basis` (tax_service.py, lines 386–398):
sum of `quantity * price + fees` over the buys of the asset — here fees ARE
included. -/
def get_holding_cost_basis (asset_buys : List Tx) : ℚ :=
  (asset_buys.map (fun b => b.quantity * b.price + b.fees)).sum

/-- The holding-period classification of `TaxService.get_unrealized_gains`
(tax_service.py, lines 160–166): `days_held = (as_of_date - acq_date).days`,
long-term iff `days_held > 365`. -/
def unrealizedHoldingPeriod (as_of_date acq_date : ℚ) : HoldingPeriod :=
  if 365 < ⌊as_of_date - acq_date⌋ then HoldingPeriod.long_term
  else HoldingPeriod.short_term

/-- A lot dict as built by `TransactionService._calculate_fifo` / `_calculate_lifo`:
with keys `date`, `quantity`, `price`, `total_cost`.  The `date` of the
synthetic average-cost lot (a Python string in the source) is mapped to `0`;
no theorem below inspects it. -/
structure Lot where
  date : ℚ
  quantity : ℚ
  price : ℚ
  total_cost : ℚ
deriving DecidableEq

/-- Lot creation from a buy: `total_cost = buy.total_value + buy.fees`. -/
def mkLot (buy : Tx) : Lot :=
  { date := buy.transaction_date, quantity := buy.quantity,
    price := buy.price, total_cost := buy.total_value + buy.fees }

/-- The inner `while remaining_to_sell > 0 and lots:` loop of
`_calculate_fifo` / `_calculate_lifo`: consume `remaining_to_sell` from the
front of the lot list.  A partially consumed lot is recomputed as
`quantity * price` (the Python drops the
fee component there). -/
def consumeLots (remaining_to_sell : ℚ) : List Lot → List Lot
  | [] => []
  | lot :: rest =>
    if remaining_to_sell ≤ 0 then lot :: rest
    else if lot.quantity ≤ remaining_to_sell then
      consumeLots (remaining_to_sell - lot.quantity) rest
    else
      { lot with quantity := lot.quantity - remaining_to_sell,
                 total_cost := (lot.quantity - remaining_to_sell) * lot.price } :: rest

/-- The `CostBasisCalculation` result model from `src/models/transaction.py`. -/
structure CostBasisCalculation where
  asset_id : Nat
  symbol : Nat
  total_quantity : ℚ
  total_cost : ℚ
  average_cost_per_unit : ℚ
  method : CostBasisMethod
  remaining_lots : List Lot
deriving DecidableEq

/-- Fallback transaction for the Python `buys[0]` access (never relevant
when `buys` is nonempty, as it is at every call site). -/
def defaultTx : Tx := mkTx 0 0 .buy 0 0 0 0 0

/-- Embeds `TransactionService._calculate_fifo` (transaction_service.py,
lines 355–403). -/
def calculate_fifo (asset_id : Nat) (buys sells : List Tx) : CostBasisCalculation :=
  let lots := buys.map mkLot
  let lots := sells.foldl (fun acc s => consumeLots s.quantity acc) lots
  let total_quantity := (lots.map Lot.quantity).sum
  let total_cost := (lots.map Lot.total_cost).sum
  { asset_id := asset_id
    symbol := (buys.headD defaultTx).symbol
    total_quantity := total_quantity
    total_cost := total_cost
    average_cost_per_unit := if 0 < total_quantity then total_cost / total_quantity else 0
    method := CostBasisMethod.fifo
    remaining_lots := lots }

/-- Embeds `TransactionService._calculate_lifo` (transaction_service.py,
lines 405–453): lots are built from `reversed(buys)` and sells are
processed in `reversed(sells)` order. -/
def calculate_lifo (asset_id : Nat) (buys sells : List Tx) : CostBasisCalculation :=
  let lots := buys.reverse.map mkLot
  let lots := sells.reverse.foldl (fun acc s => consumeLots s.quantity acc) lots
  let total_quantity := (lots.map Lot.quantity).sum
  let total_cost := (lots.map Lot.total_cost).sum
  { asset_id := asset_id
    symbol := (buys.headD defaultTx).symbol
    total_quantity := total_quantity
    total_cost := total_cost
    average_cost_per_unit := if 0 < total_quantity then total_cost / total_quantity else 0
    method := CostBasisMethod.lifo
    remaining_lots := lots }

/-- Embeds `TransactionService._calculate_average` (transaction_service.py,
lines 455–495). -/
def calculate_average (asset_id : Nat) (buys sells : List Tx) : CostBasisCalculation :=
  let total_quantity_bought := (buys.map Tx.quantity).sum
  let total_cost_bought := (buys.map (fun b => b.total_value + b.fees)).sum
  let total_quantity_sold := (sells.map Tx.quantity).sum
  let total_quantity := total_quantity_bought - total_quantity_sold
  let average_cost :=
    if 0 < total_quantity_bought then total_cost_bought / total_quantity_bought else 0
  let total_cost := total_quantity * average_cost
  let lots :=
    if 0 < total_quantity then
      [{ date := 0, quantity := total_quantity, price := average_cost,
         total_cost := total_cost : Lot }]
    else []
  { asset_id := asset_id
    symbol := (buys.headD defaultTx).symbol
    total_quantity := total_quantity
    total_cost := total_cost
    average_cost_per_unit := average_cost
    method := CostBasisMethod.average
    remaining_lots := lots }

/-- Stable chronological insertion, modelling
`transactions.sort(key=lambda x: x.transaction_date)`. -/
def insertByDate (t : Tx) : List Tx → List Tx
  | [] => [t]
  | u :: us =>
    if t.transaction_date < u.transaction_date then t :: u :: us
    else u :: insertByDate t us

/-- Stable sort by `transaction_date`. -/
def sortByDate (l : List Tx) : List Tx :=
  l.foldl (fun acc t => insertByDate t acc) []

/-- Embeds `TransactionService.calculate_cost_basis` (transaction_service.py,
lines 304–353): sort, split into buys (`BUY` only) and sells (`SELL` only),
short-circuit on no buys, then dispatch on the method. -/
def calculate_cost_basis (asset_id : Nat) (transactions : List Tx)
    (method : CostBasisMethod) : CostBasisCalculation :=
  let txs := sortByDate transactions
  let buys := txs.filter (fun t => t.transaction_type == TransactionType.buy)
  let sells := txs.filter (fun t => t.transaction_type == TransactionType.sell)
  if buys.isEmpty then
    { asset_id := asset_id
      symbol := (txs.headD defaultTx).symbol
      total_quantity := 0, total_cost := 0, average_cost_per_unit := 0
      method := method, remaining_lots := [] }
  else
    match method with
    | CostBasisMethod.fifo => calculate_fifo asset_id buys sells
    | CostBasisMethod.lifo => calculate_lifo asset_id buys sells
    | CostBasisMethod.average => calculate_average asset_id buys sells

/-- The outcome of the `get_cost_basis` HTTP handler: either a successful
body carrying a `CostBasisCalculation`, or an error response with a status
code and message. -/
inductive CostBasisResponse where
  | ok (result : CostBasisCalculation)
  | err (status : Nat) (message : String)
deriving DecidableEq

/-- Python lower-casing (ASCII case folding, which is all the handler
inputs exercise), written over the character list so it is kernel-reducible. -/
def lowerString (s : String) : String := String.mk (s.data.map Char.toLower)

/-- Embeds the `CostBasisMethod` enum lookup by value; an unknown
value raises `ValueError("<v> is not a valid CostBasisMethod")`. -/
def parseCostBasisMethod (s : String) : Except String CostBasisMethod :=
  if s == "fifo" then Except.ok CostBasisMethod.fifo
  else if s == "lifo" then Except.ok CostBasisMethod.lifo
  else if s == "average" then Except.ok CostBasisMethod.average
  else Except.error (s ++ " is not a valid CostBasisMethod")

/-- Embeds the `get_cost_basis` handler (src/handlers/transaction.py, lines 380–425):
requires `asset_id`, defaults the method parameter to `fifo`, lower-cases
it, parses it as a `CostBasisMethod` (a `ValueError` becomes a 400
response), and otherwise returns the service result. -/
def get_cost_basis (asset_id : Option Nat) (methodParam : Option String)
    (transactions : List Tx) : CostBasisResponse :=
  match asset_id with
  | none => CostBasisResponse.err 400 ("asset_id is required")
  | some aid =>
    let method_str := lowerString (methodParam.getD ("fifo"))
    match parseCostBasisMethod method_str with
    | Except.error e => CostBasisResponse.err 400 e
    | Except.ok m => CostBasisResponse.ok (calculate_cost_basis aid transactions m)

/-! ### Analysis helpers

Recursive re-statements of the two matching loops, used to relate the
stateful lot consumption of `_calculate_fifo` to the stateless per-sale
matching of `_calculate_gain_for_sale`. -/

/-- Total cost the `_calculate_gain_for_sale` loop charges when matching
`remaining_to_match` against `buys` in order (a recursive restatement of
the `gainFold` fold, proved equivalent below). -/
def fifoMatchCost (remaining_to_match : ℚ) : List Tx → ℚ
  | [] => 0
  | b :: bs =>
    if remaining_to_match ≤ 0 then 0
    else
      let q := b.remaining_quantity.getD b.quantity
      if q ≤ 0 then fifoMatchCost remaining_to_match bs
      else min remaining_to_match q * b.price +
        fifoMatchCost (remaining_to_match - min remaining_to_match q) bs

/-- The `(quantity_taken, unit_price)` pairs consumed when matching
`remaining_to_match` against `buys` in order. -/
def consumedPairs (remaining_to_match : ℚ) : List Tx → List (ℚ × ℚ)
  | [] => []
  | b :: bs =>
    if remaining_to_match ≤ 0 then []
    else
      let q := b.remaining_quantity.getD b.quantity
      if q ≤ 0 then consumedPairs remaining_to_match bs
      else (min remaining_to_match q, b.price) ::
        consumedPairs (remaining_to_match - min remaining_to_match q) bs

/-- The unmatched residue (`remaining_to_match` at loop exit) of the
`_calculate_gain_for_sale` matching — positive exactly when the sell
quantity exceeds the available buy inventory; the code never inspects it. -/
def matchResidual (sell : Tx) (all_buys : List Tx) : ℚ :=
  ((symbolBuys sell all_buys).foldl gainFold (sell.quantity, 0, none)).1

/-- Following the words of the spec (§4.2), where the unit cost of a lot
already includes its pro-rated acquisition fee.  Spec-side definition, for
comparison with the `_calculate_gain_for_sale` of the code. -/
def specFeeInclusiveUnitCost (b : Tx) : ℚ := b.price + b.fees / b.quantity

/-- Following the words of the spec (§4.2): `cost_basis` as the sum of
quantity-taken times unit-cost over consumed lots with fee-inclusive unit
costs.  Spec-side definition, for comparison with the code. -/
def specFeeInclusiveCostBasis (remaining_to_match : ℚ) : List Tx → ℚ
  | [] => 0
  | b :: bs =>
    if remaining_to_match ≤ 0 then 0
    else
      let q := b.remaining_quantity.getD b.quantity
      if q ≤ 0 then specFeeInclusiveCostBasis remaining_to_match bs
      else min remaining_to_match q * specFeeInclusiveUnitCost b +
        specFeeInclusiveCostBasis (remaining_to_match - min remaining_to_match q) bs

/-- Sum of quantities over a lot list. -/
def lotsQty (L : List Lot) : ℚ := (L.map Lot.quantity).sum

/-- Sum of `total_cost` over a lot list. -/
def lotsCost (L : List Lot) : ℚ := (L.map Lot.total_cost).sum

/-- Sum of transaction quantities. -/
def txQty (l : List Tx) : ℚ := (l.map Tx.quantity).sum

/-- Sum of buy costs `total_value + fees` (the cost the service assigns
to each lot). -/
def txCost (l : List Tx) : ℚ := (l.map (fun b => b.total_value + b.fees)).sum

/-! ### Concrete inputs used by the per-claim counterexamples and witnesses.

All are one-symbol histories over symbol `7`; `total_value` is
`quantity * price` exactly as `create_transaction` computes it. -/

/-- C1 counterexample: the only buy — 1 unit at 10 on day 0. -/
def c1buy : Tx := mkTx 1 7 TransactionType.buy 1 10 10 0 0

/-- C1 counterexample: an oversell — 2 units at 30 on day 5 (only 1 ever bought). -/
def c1sell : Tx := mkTx 2 7 TransactionType.sell 2 30 60 0 5

/-- C1 witness: buy of 2 units at 10 on day 0. -/
def c1wbuy : Tx := mkTx 1 7 TransactionType.buy 2 10 20 0 0

/-- C1 witness: covered sell of 1 unit on day 5. -/
def c1wsell : Tx := mkTx 2 7 TransactionType.sell 1 30 30 0 5

/-- C2 witness: a buy record with no `remaining_quantity` field. -/
def c2buy : Tx := mkTx 1 7 TransactionType.buy 10 10 100 0 0

/-- C2 witness: first sell of the year. -/
def c2s1 : Tx := mkTx 2 7 TransactionType.sell 3 12 36 0 100

/-- C2 witness: the middle sell whose record is compared. -/
def c2s2 : Tx := mkTx 3 7 TransactionType.sell 4 12 48 0 200

/-- C2 witness: last sell of the year. -/
def c2s3 : Tx := mkTx 4 7 TransactionType.sell 5 12 60 0 300

/-- C3: a buy of 1 unit at 10 with a 5 acquisition fee. -/
def c3buy : Tx := mkTx 1 7 TransactionType.buy 1 10 10 5 0

/-- C3: a sell of that unit at 20. -/
def c3sell : Tx := mkTx 2 7 TransactionType.sell 1 20 20 0 10

/-- The gain record the code produces for `c3sell` against `[c3buy]`:
cost basis 10 — the 5 fee is absent. -/
def c3rec : GainRecord :=
  { transaction_id := 2, symbol := 7, quantity := 1, acquisition_date := 0,
    sale_date := 10, proceeds := 20, cost_basis := 10, gain_loss := 10,
    holding_period := HoldingPeriod.short_term, days_held := 10 }

/-- C4: one buy of 1 unit at 10 on day 0. -/
def c4buy : Tx := mkTx 1 7 TransactionType.buy 1 10 10 0 0

/-- C4: a sell of 2 units — exceeds the 1 unit ever bought. -/
def c4sell : Tx := mkTx 2 7 TransactionType.sell 2 30 60 0 10

/-- The ordinary best-effort record the code produces for the oversell
`c4sell`: cost basis covers only the 1 matched unit. -/
def c4rec : GainRecord :=
  { transaction_id := 2, symbol := 7, quantity := 2, acquisition_date := 0,
    sale_date := 10, proceeds := 60, cost_basis := 10, gain_loss := 50,
    holding_period := HoldingPeriod.short_term, days_held := 10 }

/-- C5 witness: the original acquisition (10 units at 10 on day 0). -/
def c5buy0 : Tx := mkTx 1 7 TransactionType.buy 10 10 100 0 0

/-- C5 witness: replacement purchase on day 115 (within 30 days after the
day-100 loss sale). -/
def c5buy115 : Tx := mkTx 2 7 TransactionType.buy 1 9 9 0 115

/-- C5 witness: loss sale on day 100 — 5 units at 1 against basis 10. -/
def c5sell : Tx := mkTx 3 7 TransactionType.sell 5 1 5 0 100

/-- The gain record for `c5sell`: a 45 loss. -/
def c5rec : GainRecord :=
  { transaction_id := 3, symbol := 7, quantity := 5, acquisition_date := 0,
    sale_date := 100, proceeds := 5, cost_basis := 50, gain_loss := -45,
    holding_period := HoldingPeriod.short_term, days_held := 100 }

/-- C6 scenario buys: 5 units at 10 on 2024-01-01 (day 0) and 5 units at 20
on 2024-06-01 (day 152). -/
def c6buys : List Tx :=
  [mkTx 1 7 TransactionType.buy 5 10 50 0 0,
   mkTx 2 7 TransactionType.buy 5 20 100 0 152]

/-- C6 scenario sell: 6 units at 30 on 2025-02-01 (day 397; 2024 is a leap
year, so 2024-01-01 → 2025-02-01 is 366 + 31 = 397 days). -/
def c6sell : Tx := mkTx 3 7 TransactionType.sell 6 30 180 0 397

/-- C7 buys: 10 units at 1 on day 1 and 10 units at 2 on day 5. -/
def c7buys : List Tx :=
  [mkTx 1 7 TransactionType.buy 10 1 10 0 1,
   mkTx 2 7 TransactionType.buy 10 2 20 0 5]

/-- C7 sell: 12 units on day 10 (at 3, though the price does not affect the
cost basis). -/
def c7sell : Tx := mkTx 3 7 TransactionType.sell 12 3 36 0 10

/-- C8: acquisition on day 0. -/
def c8buy : Tx := mkTx 1 7 TransactionType.buy 1 10 10 0 0

/-- C8: sale exactly 365 days after acquisition. -/
def c8sell365 : Tx := mkTx 2 7 TransactionType.sell 1 20 20 0 365

/-- C8: sale 366 days after acquisition. -/
def c8sell366 : Tx := mkTx 3 7 TransactionType.sell 1 20 20 0 366

/-- The gain record for `c8sell365` (365 days held — short term). -/
def c8rec365 : GainRecord :=
  { transaction_id := 2, symbol := 7, quantity := 1, acquisition_date := 0,
    sale_date := 365, proceeds := 20, cost_basis := 10, gain_loss := 10,
    holding_period := HoldingPeriod.short_term, days_held := 365 }

/-- C9 counterexample buys: 5 units at 1 on day 0, 5 units at 2 on day 5,
no fees. -/
def c9buys : List Tx :=
  [mkTx 1 7 TransactionType.buy 5 1 5 0 0,
   mkTx 2 7 TransactionType.buy 5 2 10 0 5]

/-- C9 counterexample sells: two sells of 4 units each (days 6 and 7). -/
def c9sells : List Tx :=
  [mkTx 3 7 TransactionType.sell 4 3 12 0 6,
   mkTx 4 7 TransactionType.sell 4 3 12 0 7]

/-- C9 witness: a single buy of 10 units at 1, no fees. -/
def c9wbuy : Tx := mkTx 1 7 TransactionType.buy 10 1 10 0 0

/-- C9 witness: a single sell of 4 units. -/
def c9wsell : Tx := mkTx 2 7 TransactionType.sell 4 2 8 0 5

/-! ### Sum lemmas -/

theorem lotsQty_cons (l : Lot) (L : List Lot) :
    lotsQty (l :: L) = l.quantity + lotsQty L := by
  simp [lotsQty]

theorem lotsCost_cons (l : Lot) (L : List Lot) :
    lotsCost (l :: L) = l.total_cost + lotsCost L := by
  simp [lotsCost]

theorem txQty_cons (t : Tx) (l : List Tx) :
    txQty (t :: l) = t.quantity + txQty l := by
  simp [txQty]

theorem lotsQty_nonneg (L : List Lot) (h : ∀ l ∈ L, 0 ≤ l.quantity) :
    0 ≤ lotsQty L := by
  induction L with
  | nil => simp [lotsQty]
  | cons a as ih =>
    rw [lotsQty_cons]
    exact add_nonneg (h a (List.mem_cons_self a as))
      (ih fun l hl => h l (List.mem_cons_of_mem a hl))

theorem txQty_nonneg (l : List Tx) (h : ∀ t ∈ l, 0 ≤ t.quantity) :
    0 ≤ txQty l := by
  induction l with
  | nil => simp [txQty]
  | cons a as ih =>
    rw [txQty_cons]
    exact add_nonneg (h a (List.mem_cons_self a as))
      (ih fun t ht => h t (List.mem_cons_of_mem a ht))

theorem lotsQty_map_mkLot (buys : List Tx) :
    lotsQty (buys.map mkLot) = txQty buys := by
  unfold lotsQty txQty
  rw [List.map_map]
  rfl

theorem lotsCost_map_mkLot (buys : List Tx) :
    lotsCost (buys.map mkLot) = txCost buys := by
  unfold lotsCost txCost
  rw [List.map_map]
  rfl

theorem txQty_reverse (l : List Tx) : txQty l.reverse = txQty l := by
  simp [txQty, List.map_reverse, List.sum_reverse]

/-! ### Lot consumption: quantity accounting -/

theorem consumeLots_nonneg (L : List Lot) : ∀ (r : ℚ),
    (∀ l ∈ L, 0 ≤ l.quantity) → ∀ l ∈ consumeLots r L, 0 ≤ l.quantity := by
  induction L with
  | nil => intro r _ l hl; rw [consumeLots] at hl; simp at hl
  | cons a as ih =>
    intro r h l hl
    rw [consumeLots] at hl
    by_cases h0 : r ≤ 0
    · rw [if_pos h0] at hl; exact h l hl
    · rw [if_neg h0] at hl
      by_cases hq : a.quantity ≤ r
      · rw [if_pos hq] at hl
        exact ih (r - a.quantity) (fun x hx => h x (List.mem_cons_of_mem a hx)) l hl
      · rw [if_neg hq] at hl
        rcases List.mem_cons.mp hl with rfl | hmem
        · dsimp
          linarith [not_le.mp hq]
        · exact h l (List.mem_cons_of_mem a hmem)

theorem consumeLots_qty (L : List Lot) : ∀ (r : ℚ), 0 ≤ r →
    (∀ l ∈ L, 0 ≤ l.quantity) →
    lotsQty (consumeLots r L) = lotsQty L - min r (lotsQty L) := by
  induction L with
  | nil =>
    intro r hr _
    rw [consumeLots]
    simp [lotsQty, min_eq_right hr]
  | cons a as ih =>
    intro r hr h
    have ha : 0 ≤ a.quantity := h a (List.mem_cons_self a as)
    have has : ∀ l ∈ as, 0 ≤ l.quantity := fun l hl => h l (List.mem_cons_of_mem a hl)
    have hS : 0 ≤ lotsQty as := lotsQty_nonneg as has
    rw [consumeLots]
    by_cases h0 : r ≤ 0
    · have hr0 : r = 0 := le_antisymm h0 hr
      subst hr0
      rw [if_pos le_rfl]
      have hmin : min (0:ℚ) (lotsQty (a :: as)) = 0 := by
        rw [lotsQty_cons]
        exact min_eq_left (by linarith)
      rw [hmin, sub_zero]
    · rw [if_neg h0]
      have hr0 : 0 < r := lt_of_not_le h0
      by_cases hq : a.quantity ≤ r
      · rw [if_pos hq, ih (r - a.quantity) (by linarith) has, lotsQty_cons]
        rcases le_total (r - a.quantity) (lotsQty as) with hc | hc
        · rw [min_eq_left hc, min_eq_left (by linarith : r ≤ a.quantity + lotsQty as)]
          ring
        · rw [min_eq_right hc, min_eq_right (by linarith : a.quantity + lotsQty as ≤ r)]
          ring
      · rw [if_neg hq, lotsQty_cons, lotsQty_cons]
        dsimp
        have hmin : min r (a.quantity + lotsQty as) = r :=
          min_eq_left (by linarith [not_le.mp hq])
        rw [hmin]
        ring

theorem foldConsume_qty (sells : List Tx) : ∀ (L : List Lot),
    (∀ s ∈ sells, 0 ≤ s.quantity) → (∀ l ∈ L, 0 ≤ l.quantity) →
    txQty sells ≤ lotsQty L →
    lotsQty (sells.foldl (fun acc s => consumeLots s.quantity acc) L) =
      lotsQty L - txQty sells := by
  induction sells with
  | nil => intro L _ _ _; simp [txQty]
  | cons s ss ih =>
    intro L hs hL hle
    have hs0 : 0 ≤ s.quantity := hs s (List.mem_cons_self s ss)
    have hss : ∀ t ∈ ss, 0 ≤ t.quantity := fun t ht => hs t (List.mem_cons_of_mem s ht)
    have hssQ : 0 ≤ txQty ss := txQty_nonneg ss hss
    rw [txQty_cons] at hle
    have hsL : s.quantity ≤ lotsQty L := by linarith
    have hle2 : txQty ss ≤ lotsQty (consumeLots s.quantity L) := by
      rw [consumeLots_qty L s.quantity hs0 hL, min_eq_left hsL]
      linarith
    rw [List.foldl_cons, ih _ hss (consumeLots_nonneg L s.quantity hL) hle2,
      consumeLots_qty L s.quantity hs0 hL, min_eq_left hsL, txQty_cons]
    ring

theorem calculate_fifo_lots (asset_id : Nat) (buys sells : List Tx) :
    (calculate_fifo asset_id buys sells).remaining_lots =
      sells.foldl (fun acc s => consumeLots s.quantity acc) (buys.map mkLot) := rfl

theorem calculate_lifo_lots (asset_id : Nat) (buys sells : List Tx) :
    (calculate_lifo asset_id buys sells).remaining_lots =
      sells.reverse.foldl (fun acc s => consumeLots s.quantity acc)
        (buys.reverse.map mkLot) := rfl

/-- C1 (counterexample): an oversold one-symbol history — 1 unit bought,
2 sold.  The remaining lot quantities of the FIFO calculation sum to 0, not to
`total bought − total sold = −1`, and no result is ever flagged
Unresolvable (no such flag exists in `CostBasisCalculation`), so the
claimed conservation equality fails on the code. -/
theorem C1_counterexample :
    ¬ (lotsQty (calculate_fifo 0 [c1buy] [c1sell]).remaining_lots =
        txQty [c1buy] - txQty [c1sell]) := by
  norm_num [calculate_fifo, consumeLots, mkLot, mkTx, lotsQty, txQty, c1buy, c1sell]

/-- C1 (amended): for every one-symbol transaction sequence with
nonnegative quantities in which the total sold does not exceed the total
bought, both the FIFO and the LIFO cost-basis calculations return a
`CostBasisCalculation` whose remaining lot quantities sum to
`total bought − total sold`, and that sum is nonnegative.  (When sells
exceed the inventory the code clamps silently instead — see the
counterexample — and nothing is ever flagged Unresolvable.) -/
theorem C1_conservation (asset_id : Nat) (buys sells : List Tx)
    (hb : ∀ b ∈ buys, 0 ≤ b.quantity) (hs : ∀ s ∈ sells, 0 ≤ s.quantity)
    (hle : txQty sells ≤ txQty buys) :
    lotsQty (calculate_fifo asset_id buys sells).remaining_lots =
      txQty buys - txQty sells ∧
    0 ≤ lotsQty (calculate_fifo asset_id buys sells).remaining_lots ∧
    lotsQty (calculate_lifo asset_id buys sells).remaining_lots =
      txQty buys - txQty sells ∧
    0 ≤ lotsQty (calculate_lifo asset_id buys sells).remaining_lots := by
  have hmap : ∀ l ∈ buys.map mkLot, 0 ≤ l.quantity := by
    intro l hl
    obtain ⟨b, hb', rfl⟩ := List.mem_map.mp hl
    simpa [mkLot] using hb b hb'
  have hmapR : ∀ l ∈ buys.reverse.map mkLot, 0 ≤ l.quantity := by
    intro l hl
    obtain ⟨b, hb', rfl⟩ := List.mem_map.mp hl
    simpa [mkLot] using hb b (List.mem_reverse.mp hb')
  have hsR : ∀ s ∈ sells.reverse, 0 ≤ s.quantity :=
    fun s h => hs s (List.mem_reverse.mp h)
  have e1 : lotsQty (buys.map mkLot) = txQty buys := lotsQty_map_mkLot buys
  have e2 : lotsQty (buys.reverse.map mkLot) = txQty buys := by
    rw [lotsQty_map_mkLot, txQty_reverse]
  have f1 := foldConsume_qty sells (buys.map mkLot) hs hmap (by rw [e1]; exact hle)
  have f2 := foldConsume_qty sells.reverse (buys.reverse.map mkLot) hsR hmapR
    (by rw [e2, txQty_reverse]; exact hle)
  rw [e1] at f1
  rw [e2, txQty_reverse] at f2
  rw [calculate_fifo_lots, calculate_lifo_lots, f1, f2]
  refine ⟨rfl, by linarith, rfl, by linarith⟩

/-- C1 (witness): the conservation theorem applied to a covered history —
2 units bought, 1 sold; the remaining inventory sums to 1 under both
methods. -/
theorem C1_conservation_witness :
    lotsQty (calculate_fifo 0 [c1wbuy] [c1wsell]).remaining_lots =
      txQty [c1wbuy] - txQty [c1wsell] ∧
    0 ≤ lotsQty (calculate_fifo 0 [c1wbuy] [c1wsell]).remaining_lots ∧
    lotsQty (calculate_lifo 0 [c1wbuy] [c1wsell]).remaining_lots =
      txQty [c1wbuy] - txQty [c1wsell] ∧
    0 ≤ lotsQty (calculate_lifo 0 [c1wbuy] [c1wsell]).remaining_lots :=
  C1_conservation 0 [c1wbuy] [c1wsell]
    (by norm_num [c1wbuy, mkTx]) (by norm_num [c1wsell, mkTx])
    (by norm_num [txQty, c1wbuy, c1wsell, mkTx])

/-! ### The stateless per-sale matcher: fold characterisation -/

theorem fifoMatchCost_nonpos {r : ℚ} (h : r ≤ 0) :
    ∀ bs : List Tx, fifoMatchCost r bs = 0 := by
  intro bs
  cases bs with
  | nil => rfl
  | cons b bs => rw [fifoMatchCost, if_pos h]

theorem fold_cost (bs : List Tx) : ∀ (r c : ℚ) (e : Option ℚ),
    (bs.foldl gainFold (r, c, e)).2.1 = c + fifoMatchCost r bs := by
  induction bs with
  | nil => intro r c e; simp [fifoMatchCost]
  | cons b bs ih =>
    intro r c e
    rw [List.foldl_cons]
    have key : (bs.foldl gainFold (gainFold (r, c, e) b)).2.1 =
        (gainFold (r, c, e) b).2.1 +
          fifoMatchCost (gainFold (r, c, e) b).1 bs :=
      ih (gainFold (r, c, e) b).1 (gainFold (r, c, e) b).2.1 (gainFold (r, c, e) b).2.2
    rw [key]
    by_cases h0 : r ≤ 0
    · rw [fifoMatchCost, if_pos h0]
      simp [gainFold, h0, fifoMatchCost_nonpos h0]
    · by_cases hq : (b.remaining_quantity.getD b.quantity) ≤ 0
      · rw [fifoMatchCost, if_neg h0]
        simp [gainFold, h0, hq]
      · rw [fifoMatchCost, if_neg h0]
        simp [gainFold, h0, hq]
        ring

theorem fold_some (bs : List Tx) : ∀ (acc : ℚ × ℚ × Option ℚ),
    acc.2.2.isSome → ((bs.foldl gainFold acc).2.2).isSome := by
  induction bs with
  | nil => intro acc h; exact h
  | cons b bs ih =>
    intro acc h
    rw [List.foldl_cons]
    apply ih
    unfold gainFold
    by_cases h0 : acc.1 ≤ 0
    · simpa [h0] using h
    · by_cases hq : (b.remaining_quantity.getD b.quantity) ≤ 0
      · simpa [h0, hq] using h
      · obtain ⟨x, hx⟩ := Option.isSome_iff_exists.mp h
        simp only [h0, hq, if_false, hx]
        split <;> simp

theorem fold_none_cost (bs : List Tx) : ∀ (r c : ℚ),
    (bs.foldl gainFold (r, c, none)).2.2 = none → fifoMatchCost r bs = 0 := by
  induction bs with
  | nil => intro r c _; rfl
  | cons b bs ih =>
    intro r c h
    by_cases h0 : r ≤ 0
    · exact fifoMatchCost_nonpos h0 (b :: bs)
    · by_cases hq : (b.remaining_quantity.getD b.quantity) ≤ 0
      · have hg : gainFold (r, c, none) b = (r, c, none) := by
          simp [gainFold, h0, hq]
        rw [List.foldl_cons, hg] at h
        rw [fifoMatchCost, if_neg h0]
        simpa [hq] using ih r c h
      · exfalso
        have hg : (gainFold (r, c, none) b).2.2 = some b.transaction_date := by
          simp [gainFold, h0, hq]
        have hsome : ((bs.foldl gainFold (gainFold (r, c, none) b)).2.2).isSome :=
          fold_some bs (gainFold (r, c, none) b) (by simp [hg])
        rw [List.foldl_cons] at h
        rw [h] at hsome
        simp at hsome

/-- The shape of every `some` result of `calculate_gain_for_sale`. -/
theorem gainForSale_some_eq (sell : Tx) (all_buys : List Tx) (g : GainRecord)
    (h : calculate_gain_for_sale sell all_buys = some g) :
    ∃ e : ℚ,
      ((symbolBuys sell all_buys).foldl gainFold (sell.quantity, 0, none)).2.2 = some e ∧
      g = { transaction_id := sell.transaction_id
            symbol := sell.symbol
            quantity := sell.quantity
            acquisition_date := e
            sale_date := sell.transaction_date
            proceeds := sell.quantity * sell.price
            cost_basis :=
              ((symbolBuys sell all_buys).foldl gainFold (sell.quantity, 0, none)).2.1
            gain_loss := sell.quantity * sell.price -
              ((symbolBuys sell all_buys).foldl gainFold (sell.quantity, 0, none)).2.1
            holding_period :=
              if 365 < ⌊sell.transaction_date - e⌋ then HoldingPeriod.long_term
              else HoldingPeriod.short_term
            days_held := ⌊sell.transaction_date - e⌋ } := by
  unfold calculate_gain_for_sale at h
  split at h
  · exact absurd h (by simp)
  · split at h
    · exact absurd h (by simp)
    · rename_i e heq
      exact ⟨e, heq, ((Option.some.injEq _ _).mp h).symm⟩

/-- When the per-sale matcher returns `None`, the matched cost is zero. -/
theorem gainForSale_none_cost (sell : Tx) (all_buys : List Tx)
    (h : calculate_gain_for_sale sell all_buys = none) :
    fifoMatchCost sell.quantity (symbolBuys sell all_buys) = 0 := by
  unfold calculate_gain_for_sale at h
  split at h
  · rename_i hE
    have hnil : symbolBuys sell all_buys = [] := by
      simpa using hE
    rw [hnil]
    rfl
  · split at h
    · rename_i heq
      exact fold_none_cost _ _ _ heq
    · exact absurd h (by simp)

theorem fifoMatchCost_eq_pairs (bs : List Tx) : ∀ r : ℚ,
    fifoMatchCost r bs =
      ((consumedPairs r bs).map (fun tp => tp.1 * tp.2)).sum := by
  induction bs with
  | nil => intro r; simp [fifoMatchCost, consumedPairs]
  | cons b bs ih =>
    intro r
    by_cases h0 : r ≤ 0
    · simp [fifoMatchCost, consumedPairs, h0]
    · by_cases hq : (b.remaining_quantity.getD b.quantity) ≤ 0
      · simp [fifoMatchCost, consumedPairs, h0, hq, ih]
      · simp [fifoMatchCost, consumedPairs, h0, hq, ih]

/-- The `capital_gains` list decomposes over list concatenation (the summary loop
treats every sell independently). -/
theorem capitalGains_append (l1 l2 all_buys : List Tx) :
    capitalGains (l1 ++ l2) all_buys =
      capitalGains l1 all_buys ++ capitalGains l2 all_buys := by
  simp [capitalGains, List.filterMap_append]

/-- Cost accounting of a single FIFO inventory consumption against the
stateless matcher, for fee-free buys with `total_value = quantity * price`
and no `remaining_quantity` field. -/
theorem consumeLots_cost (buys : List Tx) : ∀ (r : ℚ),
    (∀ b ∈ buys, 0 ≤ b.quantity ∧ b.fees = 0 ∧ b.total_value = b.quantity * b.price ∧
      b.remaining_quantity = none) →
    lotsCost (consumeLots r (buys.map mkLot)) =
      lotsCost (buys.map mkLot) - fifoMatchCost r buys := by
  induction buys with
  | nil =>
    intro r _
    rw [List.map_nil, consumeLots]
    simp [fifoMatchCost, lotsCost]
  | cons b bs ih =>
    intro r hb
    obtain ⟨hq0, hf, htv, hrq⟩ := hb b (List.mem_cons_self b bs)
    have hbs := fun x hx => hb x (List.mem_cons_of_mem b hx)
    rw [List.map_cons, consumeLots]
    by_cases h0 : r ≤ 0
    · rw [if_pos h0, fifoMatchCost_nonpos h0, sub_zero]
    · rw [if_neg h0]
      have hqlot : (mkLot b).quantity = b.quantity := rfl
      by_cases hql : (mkLot b).quantity ≤ r
      · rw [if_pos hql, ih (r - (mkLot b).quantity) hbs, fifoMatchCost, if_neg h0]
        simp only [hrq, Option.getD_none]
        by_cases hz : b.quantity ≤ 0
        · have hbq : b.quantity = 0 := le_antisymm hz hq0
          rw [if_pos hz, lotsCost_cons]
          have hc : (mkLot b).total_cost = 0 := by
            simp [mkLot, htv, hf, hbq]
          rw [hc, hqlot, hbq, sub_zero]
          ring
        · rw [if_neg hz]
          have hmin : min r b.quantity = b.quantity :=
            min_eq_right (by rw [hqlot] at hql; exact hql)
          rw [hmin, lotsCost_cons]
          have hc : (mkLot b).total_cost = b.quantity * b.price := by
            simp [mkLot, htv, hf]
          rw [hc, hqlot]
          ring
      · rw [if_neg hql, lotsCost_cons, lotsCost_cons, fifoMatchCost, if_neg h0]
        simp only [hrq, Option.getD_none]
        have hr0 : 0 < r := lt_of_not_le h0
        have hql' : r < b.quantity := by rw [hqlot] at hql; exact not_le.mp hql
        have hq_pos : ¬ b.quantity ≤ 0 := by linarith
        rw [if_neg hq_pos]
        have hmin : min r b.quantity = r := min_eq_left (le_of_lt hql')
        rw [hmin, sub_self, fifoMatchCost_nonpos le_rfl]
        dsimp [mkLot]
        rw [htv, hf]
        ring

/-- C3 (counterexample): a buy of 1 unit at 10 with a 5 fee, sold at 20.
The realized cost basis in the code is 10 — the fee-inclusive value the claim
demands would be 15 — so buy-side fees are NOT folded into the realized
cost basis. -/
theorem C3_counterexample :
    ¬ ((calculate_gain_for_sale c3sell [c3buy]).map GainRecord.cost_basis =
        some (specFeeInclusiveCostBasis c3sell.quantity (symbolBuys c3sell [c3buy]))) := by
  norm_num [calculate_gain_for_sale, symbolBuys, gainFold, specFeeInclusiveCostBasis,
    specFeeInclusiveUnitCost, mkTx, c3buy, c3sell]

/-- C3 (amended): for every sell matched against buy lots, the realized
`cost_basis` equals `Σ (quantity_taken_i × unit_price_i)` over consumed
lots, where the unit cost of each lot is the bare purchase price — buy-side
fees are NOT included (they enter only the separate holding cost basis
used for unrealized gains). -/
theorem C3_cost_basis_excludes_fees (sell : Tx) (all_buys : List Tx) (g : GainRecord)
    (h : calculate_gain_for_sale sell all_buys = some g) :
    g.cost_basis =
      ((consumedPairs sell.quantity (symbolBuys sell all_buys)).map
        (fun tp => tp.1 * tp.2)).sum := by
  obtain ⟨e, he, hrec⟩ := gainForSale_some_eq sell all_buys g h
  subst hrec
  dsimp only
  rw [fold_cost, fifoMatchCost_eq_pairs, zero_add]

/-- C3 (witness): the amended theorem applied to the fee-carrying input —
the basis 10 computed by the code equals the consumed quantity times the bare price. -/
theorem C3_cost_basis_excludes_fees_witness :
    calculate_gain_for_sale c3sell [c3buy] = some c3rec ∧
    c3rec.cost_basis =
      ((consumedPairs c3sell.quantity (symbolBuys c3sell [c3buy])).map
        (fun tp => tp.1 * tp.2)).sum := by
  have hg : calculate_gain_for_sale c3sell [c3buy] = some c3rec := by
    norm_num [calculate_gain_for_sale, symbolBuys, gainFold, mkTx, c3buy, c3sell, c3rec]
  exact ⟨hg, C3_cost_basis_excludes_fees c3sell [c3buy] c3rec hg⟩

/-- C4 (counterexample): a sell of 2 units against a history with only
1 unit bought leaves a positive unmatched residue, yet the code returns an
ordinary gain record with the best-effort cost basis 10 (not a tagged
unresolvable result); and a sell with no buy lots at all contributes
nothing to `capital_gains` — it is silently dropped, not distinctly
tagged. -/
theorem C4_counterexample :
    0 < matchResidual c4sell [c4buy] ∧
    calculate_gain_for_sale c4sell [c4buy] = some c4rec ∧
    capitalGains [c4sell] [] = [] := by
  refine ⟨?_, ?_, rfl⟩
  · norm_num [matchResidual, symbolBuys, gainFold, mkTx, c4sell, c4buy]
  · norm_num [calculate_gain_for_sale, symbolBuys, gainFold, mkTx, c4sell, c4buy, c4rec]

/-- C4 (amended): a sell with no same-symbol buys yields `None` (and the
summary loop silently skips it while continuing over the other sales); a
sell whose quantity exceeds the available inventory yields an ordinary
gain record whose cost basis covers only the matched portion.  No
exception and no unresolvable tagging exist. -/
theorem C4_oversell_and_empty (sell : Tx) (all_buys : List Tx) :
    (symbolBuys sell all_buys = [] → calculate_gain_for_sale sell all_buys = none) ∧
    (calculate_gain_for_sale sell all_buys = none →
      ∀ pre post : List Tx,
        capitalGains (pre ++ sell :: post) all_buys =
          capitalGains pre all_buys ++ capitalGains post all_buys) ∧
    (∀ g, calculate_gain_for_sale sell all_buys = some g →
      g.cost_basis = fifoMatchCost sell.quantity (symbolBuys sell all_buys)) := by
  refine ⟨?_, ?_, ?_⟩
  · intro hE
    unfold calculate_gain_for_sale
    simp [hE]
  · intro hnone pre post
    unfold capitalGains
    simp [List.filterMap_append, List.filterMap_cons, hnone]
  · intro g h
    obtain ⟨e, he, hrec⟩ := gainForSale_some_eq sell all_buys g h
    subst hrec
    dsimp only
    rw [fold_cost, zero_add]

/-- C4 (witness): the amended theorem applied to a sell with no buys at
all — the result is `None`, silently dropped. -/
theorem C4_oversell_and_empty_witness :
    calculate_gain_for_sale c4sell [] = none :=
  (C4_oversell_and_empty c4sell []).1 rfl

/-- C8: holding-period classification.  For every realized sale,
`holding_period = long_term ↔ days_held > 365`; the same boundary governs
the unrealized-gain classification; and concretely a sale exactly 365 days
after acquisition is `short_term` while 366 days is `long_term`. -/
theorem C8_holding_period_boundary :
    (∀ (sell : Tx) (all_buys : List Tx) (g : GainRecord),
      calculate_gain_for_sale sell all_buys = some g →
      (g.holding_period = HoldingPeriod.long_term ↔ 365 < g.days_held)) ∧
    (∀ as_of_date acq_date : ℚ,
      unrealizedHoldingPeriod as_of_date acq_date = HoldingPeriod.long_term ↔
        365 < ⌊as_of_date - acq_date⌋) ∧
    (calculate_gain_for_sale c8sell365 [c8buy]).map GainRecord.holding_period =
      some HoldingPeriod.short_term ∧
    (calculate_gain_for_sale c8sell365 [c8buy]).map GainRecord.days_held = some 365 ∧
    (calculate_gain_for_sale c8sell366 [c8buy]).map GainRecord.holding_period =
      some HoldingPeriod.long_term ∧
    (calculate_gain_for_sale c8sell366 [c8buy]).map GainRecord.days_held = some 366 := by
  refine ⟨?_, ?_, ?_, ?_, ?_, ?_⟩
  · intro sell all_buys g h
    obtain ⟨e, he, hrec⟩ := gainForSale_some_eq sell all_buys g h
    subst hrec
    dsimp only
    split
    · rename_i hlt
      simp [hlt]
    · rename_i hlt
      simp [hlt]
  · intro a b
    unfold unrealizedHoldingPeriod
    split
    · rename_i hlt
      simp [hlt]
    · rename_i hlt
      simp [hlt]
  · norm_num [calculate_gain_for_sale, symbolBuys, gainFold, mkTx, c8buy, c8sell365]
  · norm_num [calculate_gain_for_sale, symbolBuys, gainFold, mkTx, c8buy, c8sell365]
  · norm_num [calculate_gain_for_sale, symbolBuys, gainFold, mkTx, c8buy, c8sell366]
  · norm_num [calculate_gain_for_sale, symbolBuys, gainFold, mkTx, c8buy, c8sell366]

/-- C8 (witness): the boundary theorem applied to the concrete 365-day
sale record. -/
theorem C8_holding_period_boundary_witness :
    calculate_gain_for_sale c8sell365 [c8buy] = some c8rec365 ∧
    (c8rec365.holding_period = HoldingPeriod.long_term ↔ 365 < c8rec365.days_held) := by
  have hg : calculate_gain_for_sale c8sell365 [c8buy] = some c8rec365 := by
    norm_num [calculate_gain_for_sale, symbolBuys, gainFold, mkTx, c8buy, c8sell365, c8rec365]
  exact ⟨hg, C8_holding_period_boundary.1 c8sell365 [c8buy] c8rec365 hg⟩

/-- C9 (counterexample): fee-free buys (5 at 1, 5 at 2) and two sells of
4 units each.  The FIFO inventory ends with `total_cost` 4, but
`Σ buy_cost − Σ realized cost bases = 15 − (4 + 4) = 7`: the realized-sale
path matches each sell against the full (undepleted) lots, so the
round-trip identity fails. -/
theorem C9_counterexample :
    ¬ ((calculate_fifo 0 c9buys c9sells).total_cost =
        txCost c9buys -
          ((capitalGains c9sells c9buys).map GainRecord.cost_basis).sum) := by
  norm_num [calculate_fifo, consumeLots, mkLot, mkTx, lotsCost, txCost, c9buys, c9sells,
    capitalGains, List.filterMap_cons, calculate_gain_for_sale, symbolBuys, gainFold]

/-- C9 (amended): the round-trip identity holds for one-symbol fee-free
histories with a single sell: the FIFO `CostBasisCalculation.total_cost`
for the open lots equals `Σ buy_cost` minus the realized cost basis the
tax service attributes to that sale.  (With buy fees, partial consumption
recomputes the lot cost as `quantity × price` and drops the fee while the
realized path never includes fees; with several sells the realized path is
stateless across sales — both break the general identity, as the
counterexample shows.) -/
theorem C9_round_trip_single_sale (asset_id : Nat) (buys : List Tx) (sell : Tx)
    (hb : ∀ b ∈ buys, b.symbol = sell.symbol ∧ b.remaining_quantity = none ∧
      b.fees = 0 ∧ b.total_value = b.quantity * b.price ∧ 0 ≤ b.quantity) :
    (calculate_fifo asset_id buys [sell]).total_cost =
      txCost buys - (calculate_gain_for_sale sell buys).elim 0 GainRecord.cost_basis := by
  have hfilter : symbolBuys sell buys = buys := by
    apply List.filter_eq_self.mpr
    intro b hbmem
    simpa using (hb b hbmem).1
  have hmc : (calculate_gain_for_sale sell buys).elim 0 GainRecord.cost_basis =
      fifoMatchCost sell.quantity buys := by
    cases hg : calculate_gain_for_sale sell buys with
    | none =>
      have hz := gainForSale_none_cost sell buys hg
      rw [hfilter] at hz
      simp [hz]
    | some g =>
      obtain ⟨e, he, hrec⟩ := gainForSale_some_eq sell buys g hg
      subst hrec
      simp only [Option.elim]
      rw [fold_cost, hfilter, zero_add]
  have hlots : (calculate_fifo asset_id buys [sell]).total_cost =
      lotsCost (consumeLots sell.quantity (buys.map mkLot)) := rfl
  rw [hlots, consumeLots_cost buys sell.quantity
      (fun b hbm => ⟨(hb b hbm).2.2.2.2, (hb b hbm).2.2.1, (hb b hbm).2.2.2.1, (hb b hbm).2.1⟩),
    lotsCost_map_mkLot, hmc]

/-- C9 (witness): the single-sale round trip on a concrete fee-free
history (10 bought at 1, 4 sold). -/
theorem C9_round_trip_single_sale_witness :
    (calculate_fifo 0 [c9wbuy] [c9wsell]).total_cost =
      txCost [c9wbuy] -
        (calculate_gain_for_sale c9wsell [c9wbuy]).elim 0 GainRecord.cost_basis :=
  C9_round_trip_single_sale 0 [c9wbuy] c9wsell
    (by norm_num [c9wbuy, c9wsell, mkTx])

/-- C2: the per-sale matching of the tax-year summary is stateless across
sells.  When the buy records carry no `remaining_quantity` field, the
`capital_gains` contribution of any sell `s` is exactly
`_calculate_gain_for_sale s all_buys`, unchanged when every other sell is
removed from the input — lots are never depleted between successive
sales. -/
theorem C2_stateless_per_sale (all_buys : List Tx)
    (hnone : ∀ b ∈ all_buys, b.remaining_quantity = none)
    (pre post : List Tx) (s : Tx) :
    capitalGains (pre ++ s :: post) all_buys =
      capitalGains pre all_buys ++ capitalGains [s] all_buys ++
        capitalGains post all_buys ∧
    capitalGains [s] all_buys = (calculate_gain_for_sale s all_buys).toList := by
  constructor
  · have hsplit : pre ++ s :: post = pre ++ [s] ++ post := by simp
    rw [hsplit, capitalGains_append, capitalGains_append]
  · unfold capitalGains
    cases h : calculate_gain_for_sale s all_buys <;> simp [h]

/-- C2 (witness): three sells in one year against a `remaining_quantity`-free
buy record; the contribution of the middle sell is that of a run containing it
alone. -/
theorem C2_stateless_per_sale_witness :
    capitalGains ([c2s1] ++ c2s2 :: [c2s3]) [c2buy] =
      capitalGains [c2s1] [c2buy] ++ capitalGains [c2s2] [c2buy] ++
        capitalGains [c2s3] [c2buy] ∧
    capitalGains [c2s2] [c2buy] = (calculate_gain_for_sale c2s2 [c2buy]).toList :=
  C2_stateless_per_sale [c2buy] (by decide) [c2s1] [c2s3] c2s2

/-- On a single sell, `detect_wash_sales` is the flag of that sell, if any. -/
theorem detect_singleton (s : Tx) (all_buys : List Tx) :
    detect_wash_sales [s] all_buys = (washFlagFor all_buys s).toList := by
  cases h : washFlagFor all_buys s <;> simp [detect_wash_sales, h]

/-- C5: a `WashSaleFlag` is produced for a sell iff its computed gain is
negative and some same-symbol buy lies in `[sale_date − 30, sale_date + 30]`
at an instant distinct from the sale; every flag carries
`disallowed_loss = |gain_loss|` (the full loss) and lists the replacement
purchases; and the detector decomposes per-sell over its input list. -/
theorem C5_wash_sale_iff (all_buys : List Tx) (sell : Tx) :
    (detect_wash_sales [sell] all_buys ≠ [] ↔
      ((∃ g, calculate_gain_for_sale sell all_buys = some g ∧ g.gain_loss < 0) ∧
       ∃ b ∈ all_buys, b.symbol = sell.symbol ∧
         sell.transaction_date - 30 ≤ b.transaction_date ∧
         b.transaction_date ≤ sell.transaction_date + 30 ∧
         b.transaction_date ≠ sell.transaction_date)) ∧
    (∀ f ∈ detect_wash_sales [sell] all_buys,
      (∀ g, calculate_gain_for_sale sell all_buys = some g →
        f.disallowed_loss = |g.gain_loss| ∧ f.loss_amount = |g.gain_loss|) ∧
      f.replacement_purchases =
        (replacementBuys sell all_buys).map
          (fun b => (b.transaction_date, b.quantity, b.price))) ∧
    (∀ (s : Tx) (rest : List Tx),
      detect_wash_sales (s :: rest) all_buys =
        detect_wash_sales [s] all_buys ++ detect_wash_sales rest all_buys) := by
  refine ⟨?_, ?_, ?_⟩
  · rw [detect_singleton]
    unfold washFlagFor
    cases hg : calculate_gain_for_sale sell all_buys with
    | none => simp
    | some g =>
      dsimp only
      by_cases hge : 0 ≤ g.gain_loss
      · rw [if_pos hge]
        simp only [Option.toList_none, ne_eq, not_true_eq_false, false_iff, not_and]
        rintro ⟨g', hg', hlt⟩
        obtain rfl : g = g' := Option.some.inj hg'
        intro _
        exact absurd hge (not_le.mpr hlt)
      · rw [if_neg hge]
        push_neg at hge
        by_cases hre : (replacementBuys sell all_buys).isEmpty
        · rw [if_pos hre]
          simp only [Option.toList_none, ne_eq, not_true_eq_false, false_iff, not_and]
          rintro - ⟨b, hbmem, hsym, hw1, hw2, hne⟩
          have hmem : b ∈ replacementBuys sell all_buys := by
            unfold replacementBuys
            rw [List.mem_filter]
            exact ⟨hbmem, by simp [hsym, hw1, hw2, hne]⟩
          rw [List.isEmpty_iff.mp hre] at hmem
          simp at hmem
        · rw [if_neg hre]
          simp only [Option.toList_some, ne_eq, List.cons_ne_nil, not_false_eq_true, true_iff]
          refine ⟨⟨g, rfl, hge⟩, ?_⟩
          have hne : replacementBuys sell all_buys ≠ [] := by
            intro hnil
            rw [hnil] at hre
            simp at hre
          obtain ⟨b, hbmem⟩ := List.exists_mem_of_ne_nil _ hne
          have hmem := hbmem
          unfold replacementBuys at hmem
          rw [List.mem_filter] at hmem
          refine ⟨b, hmem.1, ?_⟩
          have hb2 := hmem.2
          simp only [Bool.and_eq_true, beq_iff_eq, decide_eq_true_eq, bne_iff_ne,
            ne_eq] at hb2
          exact ⟨hb2.1.1.1, hb2.1.1.2, hb2.1.2, hb2.2⟩
  · intro f hf
    rw [detect_singleton] at hf
    unfold washFlagFor at hf
    cases hg : calculate_gain_for_sale sell all_buys with
    | none => rw [hg] at hf; simp at hf
    | some g =>
      rw [hg] at hf
      dsimp only at hf
      by_cases hge : 0 ≤ g.gain_loss
      · rw [if_pos hge] at hf
        simp at hf
      · rw [if_neg hge] at hf
        by_cases hre : (replacementBuys sell all_buys).isEmpty
        · rw [if_pos hre] at hf
          simp at hf
        · rw [if_neg hre] at hf
          simp only [Option.toList_some, List.mem_singleton] at hf
          subst hf
          refine ⟨?_, rfl⟩
          intro g' hg'
          obtain rfl : g = g' := Option.some.inj (hg ▸ hg')
          exact ⟨rfl, rfl⟩
  · intro s rest
    rw [detect_singleton]
    cases h : washFlagFor all_buys s <;>
      simp [detect_wash_sales, List.filterMap_cons, h]

/-- C5 (witness): a loss sale on day 100 (−45) with a same-symbol
replacement buy on day 115 produces a flag. -/
theorem C5_wash_sale_iff_witness :
    detect_wash_sales [c5sell] [c5buy0, c5buy115] ≠ [] := by
  apply (C5_wash_sale_iff [c5buy0, c5buy115] c5sell).1.mpr
  refine ⟨⟨c5rec, ?_, ?_⟩, c5buy115, ?_, ?_, ?_, ?_, ?_⟩
  · norm_num [calculate_gain_for_sale, symbolBuys, gainFold, mkTx,
      c5buy0, c5buy115, c5sell, c5rec]
  · norm_num [c5rec]
  · simp
  · rfl
  · norm_num [c5buy115, c5sell, mkTx]
  · norm_num [c5buy115, c5sell, mkTx]
  · norm_num [c5buy115, c5sell, mkTx]

/-- C6: the end-to-end FIFO scenario of the spec — buys (5 at 10 on day 0,
5 at 20 on day 152), sell (6 at 30 on day 397): all of lot 1 plus one unit
of lot 2 are consumed, `cost_basis = 70`, `proceeds = 180`,
`gain_loss = 110`, `days_held = 397` from the first acquisition, long
term. -/
theorem C6_fifo_scenario :
    calculate_gain_for_sale c6sell c6buys =
      some { transaction_id := 3, symbol := 7, quantity := 6, acquisition_date := 0,
             sale_date := 397, proceeds := 180, cost_basis := 70, gain_loss := 110,
             holding_period := HoldingPeriod.long_term, days_held := 397 } := by
  norm_num [calculate_gain_for_sale, symbolBuys, gainFold, mkTx, c6buys, c6sell]

/-- C7: FIFO vs LIFO orderings on buys (10 at 1 on day 1, 10 at 2 on
day 5) and a sell of 12 on day 10 — the FIFO sale basis is 14; LIFO leaves
a remaining inventory cost of 8, i.e. attributes 30 − 8 = 22 to the
sale. -/
theorem C7_fifo_vs_lifo :
    (calculate_gain_for_sale c7sell c7buys).map GainRecord.cost_basis = some 14 ∧
    (calculate_lifo 0 c7buys [c7sell]).total_cost = 8 ∧
    txCost c7buys - (calculate_lifo 0 c7buys [c7sell]).total_cost = 22 := by
  refine ⟨?_, ?_, ?_⟩ <;>
    norm_num [calculate_gain_for_sale, symbolBuys, gainFold, calculate_lifo,
      consumeLots, mkLot, mkTx, txCost, c7buys, c7sell]

/-- C10: every method value outside `{fifo, lifo, average}` makes the
cost-basis endpoint fail fast with a 400 error naming
`CostBasisMethod`, and no `CostBasisCalculation` is produced. -/
theorem C10_invalid_method_rejected (asset_id : Nat) (s : String)
    (transactions : List Tx)
    (h1 : lowerString s ≠ "fifo") (h2 : lowerString s ≠ "lifo")
    (h3 : lowerString s ≠ "average") :
    get_cost_basis (some asset_id) (some s) transactions =
      CostBasisResponse.err 400 (lowerString s ++ " is not a valid CostBasisMethod") ∧
    ∀ c, get_cost_basis (some asset_id) (some s) transactions ≠
      CostBasisResponse.ok c := by
  have hmain : get_cost_basis (some asset_id) (some s) transactions =
      CostBasisResponse.err 400 (lowerString s ++ " is not a valid CostBasisMethod") := by
    unfold get_cost_basis parseCostBasisMethod
    simp [h1, h2, h3]
  refine ⟨hmain, fun c hc => ?_⟩
  rw [hmain] at hc
  exact CostBasisResponse.noConfusion hc

/-- C10 (witness): the request `method=HIFO` is rejected with the 400
error. -/
theorem C10_invalid_method_rejected_witness :
    lowerString ("HIFO") ≠ "fifo" ∧
    get_cost_basis (some 1) (some ("HIFO")) [] =
      CostBasisResponse.err 400 ("hifo is not a valid CostBasisMethod") := by
  refine ⟨by decide, ?_⟩
  have h := (C10_invalid_method_rejected 1 ("HIFO") [] (by decide) (by decide)
    (by decide)).1
  rw [h]
  decide

end Portfolio
